import Mathlib

/-!
Verification of the budget distribution and reconciliation engine of
`budget_app` (file `budget_app/app.py`).

Numbers are modelled as exact rationals (`ℚ`); Python `None` becomes
`Option`; a Python dict becomes an association list in insertion order
(dict keys are unique, so theorems that need it carry `Nodup`
hypotheses on the key lists).  Month-slot identifiers (budget-year-entry
ids) are modelled as `ℕ`.
-/

namespace BudgetApp

abbrev Slot := ℕ

/-- Association-list lookup mirroring Python `dict.__getitem__` /
`dict.get`: first (unique) entry with the given key. -/
def dget : List (Slot × ℚ) → Slot → Option ℚ
  | [], _ => none
  | (k, v) :: rest, bid => if bid = k then some v else dget rest bid

/-- Sum of the values of an association list, i.e. `sum(d.values())`
for a Python dict with unique keys. -/
def sumVals (l : List (Slot × ℚ)) : ℚ := (l.map Prod.snd).sum

/-- The dict comprehension
`{bid: float(val) for bid, val in overrides.items() if val is not None}`
(line 124 of `app.py`): drop entries whose value is `None`. -/
def cleanOverrides (ov : List (Slot × Option ℚ)) : List (Slot × ℚ) :=
  ov.filterMap fun p => p.2.map fun v => (p.1, v)

/-- `annual_total_from_period` (app.py lines 98-109).
`months_count or 12` is Python truthiness on an integer: 12 when 0. -/
def annual_total_from_period (amount : Option ℚ) (period : Option String)
    (months_count : ℕ) : ℚ :=
  let months : ℕ := if months_count = 0 then 12 else months_count
  match amount with
  | none => 0
  | some a =>
    if period = some "Yearly" then a
    else if period = some "Quarterly" then a * 4
    else if period = some "Weekly" then a * 52
    else a * months

/-- `expected_counts.get(year_period, 12 if months_count == 0 else months_count)`
(app.py lines 114-120). -/
def expectedCount (year_period : Option String) (months_count : ℕ) : ℕ :=
  match year_period with
  | some "Monthly" => 12
  | some "Yearly" => 12
  | some "Weekly" => 12
  | some "Quarterly" => 4
  | _ => if months_count = 0 then 12 else months_count

/-- `months_for_total = expected_count or months_count or 12`
(app.py line 121), Python `or` chains on integer truthiness. -/
def monthsForTotal (year_period : Option String) (months_count : ℕ) : ℕ :=
  if expectedCount year_period months_count ≠ 0 then expectedCount year_period months_count
  else if months_count ≠ 0 then months_count
  else 12

/-- The annualized total as computed at app.py line 123. -/
def annualTotal (year_amount : Option ℚ) (year_period : Option String)
    (months_count : ℕ) : ℚ :=
  annual_total_from_period year_amount year_period (monthsForTotal year_period months_count)

/-- `year_period in (None, "", "None")` (part of app.py line 128). -/
def isNullPeriod : Option String → Bool
  | none => true
  | some s => s = "" || s = "None"

/-- `has_annual = year_amount is not None and (year_period not in (None, "", "None"))`
(app.py line 128). -/
def hasAnnual (year_amount : Option ℚ) (year_period : Option String) : Bool :=
  year_amount.isSome && !(isNullPeriod year_period)

/-- `limited_view = bool(expected_count) and 0 < len(month_bids) < expected_count`
(app.py line 135). -/
def limitedView (year_period : Option String) (months_count : ℕ) : Bool :=
  decide (expectedCount year_period months_count ≠ 0 ∧
    0 < months_count ∧ months_count < expectedCount year_period months_count)

/-- `over_limit = abs(sum_overrides) > abs(annual_total)` (app.py line 138;
the guard `annual_total is not None` at line 137 is always true since
`annual_total_from_period` always returns a number). -/
def overLimit (year_amount : Option ℚ) (year_period : Option String)
    (months_count : ℕ) (cleaned : List (Slot × ℚ)) : Bool :=
  decide (|annualTotal year_amount year_period months_count| < |sumVals cleaned|)

/-- `month_bids` entries absent from the cleaned overrides, in order
(app.py line 126). -/
def missingBids (month_bids : List Slot) (cleaned : List (Slot × ℚ)) : List Slot :=
  month_bids.filter fun bid => (dget cleaned bid).isNone

/-- `values[bid] = overrides.get(bid, 0.0)` for every bid
(app.py lines 130-132, 153-154, 159-160). -/
def passValues (cleaned : List (Slot × ℚ)) (month_bids : List Slot) : List (Slot × ℚ) :=
  month_bids.map fun bid => (bid, (dget cleaned bid).getD 0)

/-- Python `x or 0.0` on a float: falsy (zero) becomes the default. -/
def pyOr (x d : ℚ) : ℚ := if x = 0 then d else x

/-- `values[bid] = overrides.get(bid, 0.0) or 0.0` (app.py lines 142-143). -/
def limitedValues (cleaned : List (Slot × ℚ)) (month_bids : List Slot) : List (Slot × ℚ) :=
  month_bids.map fun bid => (bid, pyOr ((dget cleaned bid).getD 0) 0)

/-- `share = remainder / len(missing_bids) if missing_bids else 0.0`
(app.py lines 163-164). -/
def shareOf (year_amount : Option ℚ) (year_period : Option String)
    (months_count : ℕ) (cleaned : List (Slot × ℚ)) (missing : List Slot) : ℚ :=
  if missing ≠ [] then
    (annualTotal year_amount year_period months_count - sumVals cleaned) / (missing.length : ℚ)
  else 0

/-- Per-slot value before rounding correction: explicit value for slots
in the cleaned overrides, `share` otherwise (app.py lines 165-169). -/
def shareVal (cleaned : List (Slot × ℚ)) (share : ℚ) (bid : Slot) : ℚ :=
  match dget cleaned bid with
  | some v => v
  | none => share

/-- The values dict built at app.py lines 165-169. -/
def shareValues (cleaned : List (Slot × ℚ)) (month_bids : List Slot)
    (share : ℚ) : List (Slot × ℚ) :=
  month_bids.map fun bid => (bid, shareVal cleaned share bid)

/-- `values[last] += diff` (app.py line 174): add `d` to the entry with
key `target`. -/
def addToSlot (vals : List (Slot × ℚ)) (target : Slot) (d : ℚ) : List (Slot × ℚ) :=
  vals.map fun p => if p.1 = target then (p.1, p.2 + d) else p

/-- The values dict of the final branch of `compute_budget_distribution`
(app.py lines 163-174): even spread over the missing slots, then the
rounding correction `if abs(diff) > 1e-6: values[last] += diff`. -/
def distValues (year_amount : Option ℚ) (year_period : Option String)
    (month_bids : List Slot) (cleaned : List (Slot × ℚ)) : List (Slot × ℚ) :=
  let missing := missingBids month_bids cleaned
  let share := shareOf year_amount year_period month_bids.length cleaned missing
  let values0 := shareValues cleaned month_bids share
  let diff := annualTotal year_amount year_period month_bids.length - sumVals values0
  if missing ≠ [] ∧ 1/1000000 < |diff| then
    addToSlot values0 (missing.getLastD 0) diff
  else values0

/-- Result quadruple of `compute_budget_distribution`:
`(values, total_display, over_limit, set(overrides.keys()))`.
`explicit_slots` is kept as the ordered key list of the cleaned
overrides; only its membership is ever used. -/
structure DistributionResult where
  values : List (Slot × ℚ)
  display_total : ℚ
  over_limit : Bool
  explicit_slots : List Slot
  deriving Repr, DecidableEq

/-- `compute_budget_distribution` (app.py lines 112-175). -/
def compute_budget_distribution (year_amount : Option ℚ) (year_period : Option String)
    (month_bids : List Slot) (overrides : List (Slot × Option ℚ)) : DistributionResult :=
  if hasAnnual year_amount year_period then
    if limitedView year_period month_bids.length then
      if year_amount.isSome then
        { values := limitedValues (cleanOverrides overrides) month_bids
          display_total := annualTotal year_amount year_period month_bids.length
          over_limit := overLimit year_amount year_period month_bids.length (cleanOverrides overrides)
          explicit_slots := (cleanOverrides overrides).map Prod.fst }
      else
        { values := limitedValues (cleanOverrides overrides) month_bids
          display_total := sumVals (limitedValues (cleanOverrides overrides) month_bids)
          over_limit := false
          explicit_slots := (cleanOverrides overrides).map Prod.fst }
    else if overLimit year_amount year_period month_bids.length (cleanOverrides overrides) then
      { values := passValues (cleanOverrides overrides) month_bids
        display_total := sumVals (cleanOverrides overrides)
        over_limit := overLimit year_amount year_period month_bids.length (cleanOverrides overrides)
        explicit_slots := (cleanOverrides overrides).map Prod.fst }
    else if missingBids month_bids (cleanOverrides overrides) = [] then
      { values := passValues (cleanOverrides overrides) month_bids
        display_total := sumVals (cleanOverrides overrides)
        over_limit := overLimit year_amount year_period month_bids.length (cleanOverrides overrides)
        explicit_slots := (cleanOverrides overrides).map Prod.fst }
    else
      { values := distValues year_amount year_period month_bids (cleanOverrides overrides)
        display_total := annualTotal year_amount year_period month_bids.length
        over_limit := overLimit year_amount year_period month_bids.length (cleanOverrides overrides)
        explicit_slots := (cleanOverrides overrides).map Prod.fst }
  else
    { values := passValues (cleanOverrides overrides) month_bids
      display_total := sumVals (cleanOverrides overrides)
      over_limit := false
      explicit_slots := (cleanOverrides overrides).map Prod.fst }

/-! ### Basic lemmas about the association-list primitives -/

theorem dget_graph_of_mem (f : Slot → ℚ) :
    ∀ (bids : List Slot) (bid : Slot), bid ∈ bids →
      dget (bids.map fun b => (b, f b)) bid = some (f bid) := by
  intro bids
  induction bids with
  | nil => intro bid h; cases h
  | cons a t ih =>
    intro bid h
    by_cases hba : bid = a
    · subst hba; simp [dget]
    · have ht : bid ∈ t := by
        rcases List.mem_cons.mp h with h1 | h1
        · exact absurd h1 hba
        · exact h1
      simpa [dget, hba] using ih bid ht

theorem dget_graph_of_not_mem (f : Slot → ℚ) :
    ∀ (bids : List Slot) (bid : Slot), bid ∉ bids →
      dget (bids.map fun b => (b, f b)) bid = none := by
  intro bids
  induction bids with
  | nil => intro bid _; rfl
  | cons a t ih =>
    intro bid h
    have hba : bid ≠ a := fun hh => h (hh ▸ List.mem_cons_self a t)
    have ht : bid ∉ t := fun hh => h (List.mem_cons_of_mem a hh)
    simpa [dget, hba] using ih bid ht

theorem bool_eq_false {b : Bool} (h : ¬ b = true) : b = false := by
  cases b
  · rfl
  · exact absurd rfl h

theorem dget_addToSlot (vals : List (Slot × ℚ)) (target : Slot) (d : ℚ) (bid : Slot) :
    dget (addToSlot vals target d) bid =
      if bid = target then (dget vals bid).map (· + d) else dget vals bid := by
  induction vals with
  | nil => by_cases h : bid = target <;> simp [addToSlot, dget, h]
  | cons p rest ih =>
    obtain ⟨k, v⟩ := p
    by_cases hk : k = target
    · subst hk
      have hd : addToSlot ((k, v) :: rest) k d = (k, v + d) :: addToSlot rest k d := by
        simp [addToSlot]
      rw [hd]
      by_cases hb : bid = k
      · subst hb; simp [dget]
      · simp [dget, hb, ih]
    · have hd : addToSlot ((k, v) :: rest) target d = (k, v) :: addToSlot rest target d := by
        simp [addToSlot, hk]
      rw [hd]
      by_cases hb : bid = k
      · subst hb; simp [dget, hk]
      · simp [dget, hb, ih]

theorem keys_graph (f : Slot → ℚ) : ∀ (bids : List Slot),
    (bids.map fun b => (b, f b)).map Prod.fst = bids := by
  intro bids
  induction bids with
  | nil => rfl
  | cons a t ih => simp only [List.map_cons, ih]

theorem keys_addToSlot (vals : List (Slot × ℚ)) (target : Slot) (d : ℚ) :
    (addToSlot vals target d).map Prod.fst = vals.map Prod.fst := by
  simp only [addToSlot, List.map_map]
  apply List.map_congr_left
  intro p _
  by_cases h : p.1 = target <;> simp [h]

theorem getLastD_mem : ∀ (l : List Slot) (d : Slot), l ≠ [] → l.getLastD d ∈ l := by
  intro l
  induction l with
  | nil => intro d h; exact absurd rfl h
  | cons a t ih =>
    intro d _
    cases t with
    | nil => simp [List.getLastD]
    | cons b u =>
      have := ih a (by simp)
      simp only [List.getLastD] at this ⊢
      exact List.mem_cons_of_mem a this

theorem mem_missingBids {bid : Slot} {bids : List Slot} {cl : List (Slot × ℚ)} :
    bid ∈ missingBids bids cl ↔ bid ∈ bids ∧ dget cl bid = none := by
  simp [missingBids, List.mem_filter, Option.isNone_iff_eq_none]

theorem dget_shareValues (cl : List (Slot × ℚ)) (bids : List Slot) (s : ℚ)
    (bid : Slot) (h : bid ∈ bids) :
    dget (shareValues cl bids s) bid = some (shareVal cl s bid) := by
  rw [shareValues]
  exact dget_graph_of_mem _ bids bid h

theorem shareOf_eq (ya : Option ℚ) (yp : Option String) (mc : ℕ)
    (cl : List (Slot × ℚ)) (missing : List Slot) (h : missing ≠ []) :
    shareOf ya yp mc cl missing =
      (annualTotal ya yp mc - sumVals cl) / (missing.length : ℚ) := by
  simp [shareOf, h]

theorem pyOr_zero (x : ℚ) : pyOr x 0 = x := by
  by_cases h : x = 0 <;> simp [pyOr, h]

theorem hasAnnual_isSome {ya : Option ℚ} {yp : Option String}
    (h : hasAnnual ya yp = true) : ya.isSome = true := by
  simp only [hasAnnual, Bool.and_eq_true] at h
  exact h.1

theorem sumVals_graph (f : Slot → ℚ) (bids : List Slot) :
    sumVals (bids.map fun b => (b, f b)) = (bids.map f).sum := by
  simp only [sumVals, List.map_map]
  congr 1

theorem dget_of_not_mem_keys : ∀ (l : List (Slot × ℚ)) (k : Slot),
    k ∉ l.map Prod.fst → dget l k = none := by
  intro l
  induction l with
  | nil => intro k _; rfl
  | cons p rest ih =>
    intro k hk
    obtain ⟨a, v⟩ := p
    have h1 : ¬ k = a := by
      intro hh; exact hk (by simp [hh])
    have h2 : k ∉ rest.map Prod.fst := by
      intro hh; exact hk (by simp [hh])
    simpa [dget, h1] using ih k h2

/-- Summing a function over a duplicate-free list after changing it at
one member of the list. -/
theorem sum_map_update (k : Slot) (f : Slot → ℚ) (v : ℚ) :
    ∀ (bids : List Slot), bids.Nodup → k ∈ bids →
      (bids.map fun b => if b = k then v else f b).sum = (bids.map f).sum + v - f k := by
  intro bids
  induction bids with
  | nil => intro _ h; cases h
  | cons a t ih =>
    intro hnd hk
    have hnd' := List.nodup_cons.mp hnd
    by_cases hak : a = k
    · subst hak
      have ht : ∀ b ∈ t, (if b = a then v else f b) = f b := by
        intro b hb
        have : b ≠ a := fun hh => hnd'.1 (hh ▸ hb)
        simp [this]
      simp only [List.map_cons, List.sum_cons, List.map_congr_left ht,
        eq_self_iff_true, if_true]
      ring
    · have hkt : k ∈ t := by
        rcases List.mem_cons.mp hk with h | h
        · exact absurd h.symm hak
        · exact h
      have hak' : ¬ a = k := hak
      simp only [List.map_cons, List.sum_cons, if_neg hak', ih hnd'.2 hkt]
      ring

/-- Removing one element satisfying the predicate from a duplicate-free
list shortens the filtered list by exactly one. -/
theorem filter_length_split (k : Slot) (p : Slot → Bool) (hpk : p k = true) :
    ∀ (bids : List Slot), bids.Nodup → k ∈ bids →
      (bids.filter p).length = (bids.filter fun b => decide (b ≠ k) && p b).length + 1 := by
  intro bids
  induction bids with
  | nil => intro _ h; cases h
  | cons a t ih =>
    intro hnd hk
    have hnd' := List.nodup_cons.mp hnd
    by_cases hak : a = k
    · subst hak
      have ht : ∀ b ∈ t, (decide (b ≠ a) && p b) = p b := by
        intro b hb
        have hne : b ≠ a := fun hh => hnd'.1 (hh ▸ hb)
        simp [hne]
      have h1 : List.filter p (a :: t) = a :: List.filter p t := by
        simp [List.filter_cons, hpk]
      have h2 : List.filter (fun b => decide (b ≠ a) && p b) (a :: t) =
          List.filter (fun b => decide (b ≠ a) && p b) t := by
        simp [List.filter_cons]
      rw [h1, h2, List.filter_congr ht]
      simp
    · have hkt : k ∈ t := by
        rcases List.mem_cons.mp hk with h | h
        · exact absurd h.symm hak
        · exact h
      by_cases hpa : p a = true
      · have h1 : List.filter p (a :: t) = a :: List.filter p t := by
          simp [List.filter_cons, hpa]
        have h2 : List.filter (fun b => decide (b ≠ k) && p b) (a :: t) =
            a :: List.filter (fun b => decide (b ≠ k) && p b) t := by
          simp [List.filter_cons, hpa, hak]
        rw [h1, h2]
        simp [ih hnd'.2 hkt]
      · have hpa' : p a = false := bool_eq_false hpa
        have h1 : List.filter p (a :: t) = List.filter p t := by
          simp [List.filter_cons, hpa']
        have h2 : List.filter (fun b => decide (b ≠ k) && p b) (a :: t) =
            List.filter (fun b => decide (b ≠ k) && p b) t := by
          simp [List.filter_cons, hpa']
        rw [h1, h2]
        exact ih hnd'.2 hkt

theorem shareVal_cons (k : Slot) (v : ℚ) (rest : List (Slot × ℚ)) (share : ℚ) (b : Slot) :
    shareVal ((k, v) :: rest) share b = if b = k then v else shareVal rest share b := by
  by_cases hb : b = k <;> simp [shareVal, dget, hb]

theorem isNone_dget_cons (k : Slot) (v : ℚ) (rest : List (Slot × ℚ)) (b : Slot) :
    (dget ((k, v) :: rest) b).isNone = (decide (b ≠ k) && (dget rest b).isNone) := by
  by_cases hb : b = k <;> simp [dget, hb]

/-- Key summation fact: when every override key is among the (duplicate
free) visible slots, the pre-correction values sum to
`sum_overrides + share * len(missing)`. -/
theorem shareValues_sum (bids : List Slot) (hb : bids.Nodup) (share : ℚ) :
    ∀ (cl : List (Slot × ℚ)), (cl.map Prod.fst).Nodup → (∀ p ∈ cl, p.1 ∈ bids) →
      sumVals (shareValues cl bids share) =
        sumVals cl + share * ((missingBids bids cl).length : ℚ) := by
  intro cl
  induction cl with
  | nil =>
    intro _ _
    rw [shareValues, sumVals_graph]
    have h1 : ∀ b ∈ bids, shareVal [] share b = share := by
      intro b _; simp [shareVal, dget]
    rw [List.map_congr_left h1]
    have h2 : missingBids bids [] = bids := by
      simp [missingBids, dget, List.filter_true]
    rw [h2]
    have h3 : ∀ (l : List Slot), (l.map fun _ => share).sum = (l.length : ℚ) * share := by
      intro l
      induction l with
      | nil => simp
      | cons a t iht => simp [iht]; ring
    rw [h3]
    simp [sumVals]
    ring
  | cons p rest ih =>
    intro hk hsub
    obtain ⟨k, v⟩ := p
    have hk2 : (k :: rest.map Prod.fst).Nodup := by
      rw [List.map_cons] at hk; exact hk
    have hpair := List.nodup_cons.mp hk2
    have hk' : k ∉ rest.map Prod.fst := hpair.1
    have hknd : (rest.map Prod.fst).Nodup := hpair.2
    have hkbids : k ∈ bids := hsub (k, v) (List.mem_cons_self _ _)
    have hrest_sub : ∀ p ∈ rest, p.1 ∈ bids := fun p hp =>
      hsub p (List.mem_cons_of_mem _ hp)
    have hdgk : dget rest k = none := dget_of_not_mem_keys rest k hk'
    have hsvk : shareVal rest share k = share := by simp [shareVal, hdgk]
    -- sum over the cons overrides
    rw [shareValues, sumVals_graph]
    have hcong : ∀ b ∈ bids, shareVal ((k, v) :: rest) share b =
        (fun b => if b = k then v else shareVal rest share b) b := by
      intro b _; exact shareVal_cons k v rest share b
    rw [List.map_congr_left hcong]
    rw [sum_map_update k (shareVal rest share) v bids hb hkbids]
    have hihsum : (bids.map (shareVal rest share)).sum =
        sumVals rest + share * ((missingBids bids rest).length : ℚ) := by
      have := ih hknd hrest_sub
      rwa [shareValues, sumVals_graph] at this
    rw [hihsum, hsvk]
    -- relate the two missing-counts
    have hmiss : (missingBids bids rest).length = (missingBids bids ((k, v) :: rest)).length + 1 := by
      have hcong2 : ∀ b ∈ bids, ((dget ((k, v) :: rest) b).isNone : Bool) =
          (decide (b ≠ k) && (dget rest b).isNone) := by
        intro b _; exact isNone_dget_cons k v rest b
      have hpk : ((dget rest k).isNone : Bool) = true := by simp [hdgk]
      have := filter_length_split k (fun b => (dget rest b).isNone) hpk bids hb hkbids
      unfold missingBids
      rw [List.filter_congr hcong2]
      exact this
    rw [hmiss]
    have : sumVals ((k, v) :: rest) = v + sumVals rest := by
      simp [sumVals]
    rw [this]
    push_cast
    ring

theorem sumVals_clean_nonneg (l : List (Slot × Option ℚ))
    (h : ∀ p ∈ l, ∀ x : ℚ, p.2 = some x → 0 ≤ x) : 0 ≤ sumVals (cleanOverrides l) := by
  apply List.sum_nonneg
  intro q hq
  simp only [List.mem_map] at hq
  obtain ⟨⟨s, x⟩, hmem, hx⟩ := hq
  simp only [cleanOverrides, List.mem_filterMap] at hmem
  obtain ⟨⟨s', ox⟩, hmem', heq⟩ := hmem
  cases ox with
  | none => simp at heq
  | some y =>
    simp only [Option.map_some', Option.some.injEq, Prod.mk.injEq] at heq
    have hy : (0:ℚ) ≤ y := h (s', some y) hmem' y rfl
    have : x = y := by
      cases heq
      simp_all
    subst hx
    simpa [this] using hy

theorem cleanOverrides_append (l1 l2 : List (Slot × Option ℚ)) :
    cleanOverrides (l1 ++ l2) = cleanOverrides l1 ++ cleanOverrides l2 := by
  simp [cleanOverrides]

theorem cleanOverrides_cons_some (k : Slot) (v : ℚ) (l : List (Slot × Option ℚ)) :
    cleanOverrides ((k, some v) :: l) = (k, v) :: cleanOverrides l := by
  simp [cleanOverrides]

theorem sumVals_append (l1 l2 : List (Slot × ℚ)) :
    sumVals (l1 ++ l2) = sumVals l1 + sumVals l2 := by
  simp [sumVals]

/-! ### Branch characterizations of `compute_budget_distribution` -/

theorem compute_eq_degenerate (ya : Option ℚ) (yp : Option String)
    (bids : List Slot) (ov : List (Slot × Option ℚ))
    (h : hasAnnual ya yp = false) :
    compute_budget_distribution ya yp bids ov =
      { values := passValues (cleanOverrides ov) bids
        display_total := sumVals (cleanOverrides ov)
        over_limit := false
        explicit_slots := (cleanOverrides ov).map Prod.fst } := by
  simp [compute_budget_distribution, h]

theorem compute_eq_limited (ya : Option ℚ) (yp : Option String)
    (bids : List Slot) (ov : List (Slot × Option ℚ))
    (h1 : hasAnnual ya yp = true) (h2 : limitedView yp bids.length = true) :
    compute_budget_distribution ya yp bids ov =
      { values := limitedValues (cleanOverrides ov) bids
        display_total := annualTotal ya yp bids.length
        over_limit := overLimit ya yp bids.length (cleanOverrides ov)
        explicit_slots := (cleanOverrides ov).map Prod.fst } := by
  simp [compute_budget_distribution, h1, h2, hasAnnual_isSome h1]

theorem compute_eq_over (ya : Option ℚ) (yp : Option String)
    (bids : List Slot) (ov : List (Slot × Option ℚ))
    (h1 : hasAnnual ya yp = true) (h2 : limitedView yp bids.length = false)
    (h3 : overLimit ya yp bids.length (cleanOverrides ov) = true) :
    compute_budget_distribution ya yp bids ov =
      { values := passValues (cleanOverrides ov) bids
        display_total := sumVals (cleanOverrides ov)
        over_limit := true
        explicit_slots := (cleanOverrides ov).map Prod.fst } := by
  simp [compute_budget_distribution, h1, h2, h3]

theorem compute_eq_all_explicit (ya : Option ℚ) (yp : Option String)
    (bids : List Slot) (ov : List (Slot × Option ℚ))
    (h1 : hasAnnual ya yp = true) (h2 : limitedView yp bids.length = false)
    (h3 : overLimit ya yp bids.length (cleanOverrides ov) = false)
    (h4 : missingBids bids (cleanOverrides ov) = []) :
    compute_budget_distribution ya yp bids ov =
      { values := passValues (cleanOverrides ov) bids
        display_total := sumVals (cleanOverrides ov)
        over_limit := false
        explicit_slots := (cleanOverrides ov).map Prod.fst } := by
  simp [compute_budget_distribution, h1, h2, h3, h4]

theorem compute_eq_spread (ya : Option ℚ) (yp : Option String)
    (bids : List Slot) (ov : List (Slot × Option ℚ))
    (h1 : hasAnnual ya yp = true) (h2 : limitedView yp bids.length = false)
    (h3 : overLimit ya yp bids.length (cleanOverrides ov) = false)
    (h4 : missingBids bids (cleanOverrides ov) ≠ []) :
    compute_budget_distribution ya yp bids ov =
      { values := distValues ya yp bids (cleanOverrides ov)
        display_total := annualTotal ya yp bids.length
        over_limit := false
        explicit_slots := (cleanOverrides ov).map Prod.fst } := by
  simp [compute_budget_distribution, h1, h2, h3, h4]

/-- Across every branch, the returned `over_limit` flag equals
`has_annual && abs(sum_overrides) > abs(annual_total)`. -/
theorem over_limit_characterization (ya : Option ℚ) (yp : Option String)
    (bids : List Slot) (ov : List (Slot × Option ℚ)) :
    (compute_budget_distribution ya yp bids ov).over_limit =
      (hasAnnual ya yp && overLimit ya yp bids.length (cleanOverrides ov)) := by
  by_cases h1 : hasAnnual ya yp = true
  · by_cases h2 : limitedView yp bids.length = true
    · rw [compute_eq_limited ya yp bids ov h1 h2]; simp [h1]
    · by_cases h3 : overLimit ya yp bids.length (cleanOverrides ov) = true
      · rw [compute_eq_over ya yp bids ov h1 (bool_eq_false h2) h3]
        simp [h1, h3]
      · have h3' : overLimit ya yp bids.length (cleanOverrides ov) = false :=
          bool_eq_false h3
        by_cases h4 : missingBids bids (cleanOverrides ov) = []
        · rw [compute_eq_all_explicit ya yp bids ov h1 (bool_eq_false h2) h3' h4]
          simp [h3']
        · rw [compute_eq_spread ya yp bids ov h1 (bool_eq_false h2) h3' h4]
          simp [h3']
  · have h1' : hasAnnual ya yp = false := bool_eq_false h1
    rw [compute_eq_degenerate ya yp bids ov h1']
    simp [h1']

/-- Across every branch, the key list of the returned values dict is
exactly `month_bids`, and `explicit_slots` is exactly the key list of
the cleaned overrides. -/
theorem values_keys_characterization (ya : Option ℚ) (yp : Option String)
    (bids : List Slot) (ov : List (Slot × Option ℚ)) :
    (compute_budget_distribution ya yp bids ov).values.map Prod.fst = bids ∧
    (compute_budget_distribution ya yp bids ov).explicit_slots =
      (cleanOverrides ov).map Prod.fst := by
  have hdv : (distValues ya yp bids (cleanOverrides ov)).map Prod.fst = bids := by
    simp only [distValues]
    split
    · rw [keys_addToSlot]
      exact keys_graph _ bids
    · exact keys_graph _ bids
  by_cases h1 : hasAnnual ya yp = true
  · by_cases h2 : limitedView yp bids.length = true
    · rw [compute_eq_limited ya yp bids ov h1 h2]
      exact ⟨keys_graph _ bids, rfl⟩
    · have h2' := bool_eq_false h2
      by_cases h3 : overLimit ya yp bids.length (cleanOverrides ov) = true
      · rw [compute_eq_over ya yp bids ov h1 h2' h3]
        exact ⟨keys_graph _ bids, rfl⟩
      · have h3' : overLimit ya yp bids.length (cleanOverrides ov) = false :=
          bool_eq_false h3
        by_cases h4 : missingBids bids (cleanOverrides ov) = []
        · rw [compute_eq_all_explicit ya yp bids ov h1 h2' h3' h4]
          exact ⟨keys_graph _ bids, rfl⟩
        · rw [compute_eq_spread ya yp bids ov h1 h2' h3' h4]
          exact ⟨hdv, rfl⟩
  · rw [compute_eq_degenerate ya yp bids ov (bool_eq_false h1)]
    exact ⟨keys_graph _ bids, rfl⟩

/-! ### Claim C2 -/

/-- Claim C2: for every `month_slots` and `overrides`, if the annual
amount is null or the annual period is null/empty/"None", `distribute`
returns `values[slot] = overrides.get(slot, 0.0)` for every slot in
`month_slots`, `display_total` = sum of the cleaned (non-null) override
values, `over_limit = False`, and `explicit_slots` = the key set of the
cleaned overrides. -/
theorem claim_C2_degenerate_pass_through (ya : Option ℚ) (yp : Option String)
    (month_bids : List Slot) (overrides : List (Slot × Option ℚ))
    (h : ya = none ∨ yp = none ∨ yp = some "" ∨ yp = some "None") :
    (compute_budget_distribution ya yp month_bids overrides).values =
      month_bids.map (fun bid => (bid, (dget (cleanOverrides overrides) bid).getD 0)) ∧
    (compute_budget_distribution ya yp month_bids overrides).display_total =
      sumVals (cleanOverrides overrides) ∧
    (compute_budget_distribution ya yp month_bids overrides).over_limit = false ∧
    (compute_budget_distribution ya yp month_bids overrides).explicit_slots =
      (cleanOverrides overrides).map Prod.fst := by
  have hfa : hasAnnual ya yp = false := by
    rcases h with h | h | h | h <;> simp [hasAnnual, isNullPeriod, h]
  rw [compute_eq_degenerate ya yp month_bids overrides hfa]
  exact ⟨rfl, rfl, rfl, rfl⟩

/-- Witness for C2 at a concrete input (note the out-of-view override
key 9 participates in the total). -/
theorem claim_C2_witness :
    (compute_budget_distribution none (some "Monthly") [3, 4] [(3, some 5), (9, some 2)]).values =
      [(3, 5), (4, 0)] ∧
    (compute_budget_distribution none (some "Monthly") [3, 4] [(3, some 5), (9, some 2)]).display_total = 7 ∧
    (compute_budget_distribution none (some "Monthly") [3, 4] [(3, some 5), (9, some 2)]).over_limit = false ∧
    (compute_budget_distribution none (some "Monthly") [3, 4] [(3, some 5), (9, some 2)]).explicit_slots = [3, 9] := by
  have h := claim_C2_degenerate_pass_through none (some "Monthly") [3, 4]
    [(3, some 5), (9, some 2)] (Or.inl rfl)
  refine ⟨?_, ?_, h.2.2.1, ?_⟩
  · rw [h.1]
    simp +decide only [cleanOverrides, List.filterMap, Option.map, dget, List.map, Option.getD]
  · rw [h.2.1]
    simp only [cleanOverrides, List.filterMap, Option.map, sumVals, List.map]
    norm_num
  · rw [h.2.2.2]
    simp +decide only [cleanOverrides, List.filterMap, Option.map, List.map]

/-! ### Claim C6 -/

/-- Claim C6: `annualize` returns 0.0 when amount is null; otherwise
`amount` for Yearly, `amount * 4` for Quarterly, `amount * 52` for
Weekly, and `amount * slot_count` for any other period (including
Monthly and unrecognized strings), where `slot_count` defaults to 12
when zero. -/
theorem claim_C6_annualize (amount : ℚ) (period : Option String) (slot_count : ℕ) :
    annual_total_from_period none period slot_count = 0 ∧
    annual_total_from_period (some amount) (some "Yearly") slot_count = amount ∧
    annual_total_from_period (some amount) (some "Quarterly") slot_count = amount * 4 ∧
    annual_total_from_period (some amount) (some "Weekly") slot_count = amount * 52 ∧
    (period ≠ some "Yearly" → period ≠ some "Quarterly" → period ≠ some "Weekly" →
      annual_total_from_period (some amount) period slot_count =
        amount * ((if slot_count = 0 then 12 else slot_count : ℕ) : ℚ)) := by
  refine ⟨rfl, ?_, ?_, ?_, ?_⟩
  · simp +decide [annual_total_from_period]
  · simp +decide [annual_total_from_period]
  · simp +decide [annual_total_from_period]
  · intro h1 h2 h3
    simp [annual_total_from_period, h1, h2, h3]

/-- Witness for C6: Monthly (the fall-through multiplier) and
Quarterly at concrete values. -/
theorem claim_C6_witness :
    annual_total_from_period (some 5) (some "Monthly") 7 = 35 ∧
    annual_total_from_period (some 5) (some "Quarterly") 7 = 20 := by
  constructor
  · have h := (claim_C6_annualize 5 (some "Monthly") 7).2.2.2.2
      (by decide) (by decide) (by decide)
    rw [h]; norm_num
  · have h := (claim_C6_annualize 5 (some "Quarterly") 7).2.2.1
    rw [h]; norm_num

/-! ### Claim C4 -/

/-- Counterexample to C4 as stated: at
`annual_amount=100, annual_period="Yearly", month_slots=[m1,m2],
overrides={m1:80, m2:80}` the code returns `display_total = 100.0`
(the annualized total), not `160.0` as the claim asserts: with only 2
of the 12 expected Yearly slots visible this input is a limited view,
which is checked before the over-limit branch. -/
theorem claim_C4_counterexample :
    (compute_budget_distribution (some 100) (some "Yearly") [1, 2]
      [(1, some 80), (2, some 80)]).display_total = 100 ∧
    (compute_budget_distribution (some 100) (some "Yearly") [1, 2]
      [(1, some 80), (2, some 80)]).display_total ≠ 160 := by
  have h : (compute_budget_distribution (some 100) (some "Yearly") [1, 2]
      [(1, some 80), (2, some 80)]).display_total = 100 := by
    simp +decide only [compute_budget_distribution, hasAnnual, isNullPeriod, limitedView,
      expectedCount, overLimit, annualTotal, monthsForTotal, annual_total_from_period,
      cleanOverrides, sumVals, limitedValues, dget, pyOr, List.filterMap, List.map,
      Option.map, Option.isSome]
  refine ⟨h, ?_⟩
  rw [h]
  norm_num

/-- Claim C4 amended: at that input the code returns
`over_limit = True` and `values = {m1: 80, m2: 80}` as claimed, but
`display_total = 100.0` — the full annualized total — because 2 visible
slots < 12 expected slots makes this a limited view. -/
theorem claim_C4_amended :
    compute_budget_distribution (some 100) (some "Yearly") [1, 2]
      [(1, some 80), (2, some 80)] =
      { values := [(1, 80), (2, 80)], display_total := 100,
        over_limit := true, explicit_slots := [1, 2] } := by
  simp +decide only [compute_budget_distribution, hasAnnual, isNullPeriod, limitedView,
    expectedCount, overLimit, annualTotal, monthsForTotal, annual_total_from_period,
    cleanOverrides, sumVals, limitedValues, dget, pyOr, List.filterMap, List.map,
    Option.map, Option.isSome]
  norm_num

/-! ### Claim C3 -/

/-- Counterexample to C3 as stated: in a limited view
(`expected_count = 12` for Monthly, 5 visible slots) with
`annual_amount = 100` and one override of 2000, the code returns
`over_limit = true`, not the claimed unconditional `false`:
the over-limit flag is computed before the limited-view branch and is
not reset there when the annual amount is present. -/
theorem claim_C3_counterexample :
    limitedView (some "Monthly") 5 = true ∧
    (compute_budget_distribution (some 100) (some "Monthly") [1, 2, 3, 4, 5]
      [(1, some 2000)]).over_limit = true := by
  constructor
  · decide
  · simp +decide only [compute_budget_distribution, hasAnnual, isNullPeriod, limitedView,
      expectedCount, overLimit, annualTotal, monthsForTotal, annual_total_from_period,
      cleanOverrides, sumVals, limitedValues, dget, pyOr, List.filterMap, List.map,
      Option.map, Option.isSome]
    norm_num

/-- Claim C3 amended: under a limited view with a non-null annual
amount and non-empty period, `values[slot] = overrides.get(slot, 0.0)`
for every slot (no remainder distribution) and `display_total` is the
full annualized total, as claimed; but `over_limit` is
`abs(sum_overrides) > abs(annualized_total)` rather than being forced
to `False`. -/
theorem claim_C3_amended (a : ℚ) (p : String) (month_bids : List Slot)
    (overrides : List (Slot × Option ℚ))
    (hper : isNullPeriod (some p) = false)
    (hlim : limitedView (some p) month_bids.length = true) :
    (compute_budget_distribution (some a) (some p) month_bids overrides).values =
      month_bids.map (fun bid => (bid, (dget (cleanOverrides overrides) bid).getD 0)) ∧
    (compute_budget_distribution (some a) (some p) month_bids overrides).display_total =
      annualTotal (some a) (some p) month_bids.length ∧
    (compute_budget_distribution (some a) (some p) month_bids overrides).over_limit =
      decide (|annualTotal (some a) (some p) month_bids.length| <
        |sumVals (cleanOverrides overrides)|) := by
  have h1 : hasAnnual (some a) (some p) = true := by
    simp [hasAnnual, hper]
  rw [compute_eq_limited (some a) (some p) month_bids overrides h1 hlim]
  refine ⟨?_, rfl, rfl⟩
  simp [limitedValues, pyOr_zero]

/-- Witness for the amended C3 at a concrete limited-view input. -/
theorem claim_C3_amended_witness :
    (compute_budget_distribution (some 100) (some "Monthly") [1, 2, 3]
      [(2, some 7)]).values = [(1, 0), (2, 7), (3, 0)] ∧
    (compute_budget_distribution (some 100) (some "Monthly") [1, 2, 3]
      [(2, some 7)]).display_total = 1200 ∧
    (compute_budget_distribution (some 100) (some "Monthly") [1, 2, 3]
      [(2, some 7)]).over_limit = false := by
  have h := claim_C3_amended 100 "Monthly" [1, 2, 3] [(2, some 7)]
    (by decide) (by decide)
  refine ⟨?_, ?_, ?_⟩
  · rw [h.1]
    simp +decide only [cleanOverrides, List.filterMap, Option.map, dget, List.map, Option.getD]
  · rw [h.2.1]
    simp +decide only [annualTotal, monthsForTotal, expectedCount, annual_total_from_period]
    norm_num
  · rw [h.2.2]
    simp +decide only [annualTotal, monthsForTotal, expectedCount, annual_total_from_period,
      cleanOverrides, List.filterMap, Option.map, sumVals, List.map, decide_eq_false_iff_not]
    norm_num [abs_of_nonneg]

/-! ### Claim C5 -/

/-- Counterexample to C5 as stated: with `annual_amount = 5` (Yearly)
and overrides `{1: 10, 2: 0}`, `over_limit` is `true`; replacing the
second override 0 by -8 — strictly larger absolute value — flips
`over_limit` to `false`, because the sign change shrinks the absolute
value of the override sum (10 down to 2). -/
theorem claim_C5_counterexample :
    |(-8 : ℚ)| > |(0 : ℚ)| ∧
    (compute_budget_distribution (some 5) (some "Yearly") []
      [(1, some 10), (2, some 0)]).over_limit = true ∧
    (compute_budget_distribution (some 5) (some "Yearly") []
      [(1, some 10), (2, some (-8))]).over_limit = false := by
  refine ⟨by norm_num, ?_, ?_⟩ <;>
    · simp +decide only [compute_budget_distribution, hasAnnual, isNullPeriod, limitedView,
        expectedCount, overLimit, annualTotal, monthsForTotal, annual_total_from_period,
        cleanOverrides, sumVals, missingBids, passValues, dget, List.filter, List.filterMap,
        List.map, Option.map, Option.isSome, Option.isNone]
      norm_num [abs_of_nonneg, abs_of_nonpos]

/-- Claim C5 amended: the monotonicity holds when the override values
share a sign — for all-non-negative overrides, replacing one override
value `v` by a larger value `v' ≥ v ≥ 0` (in particular one of larger
absolute value) can only change `over_limit` from `False` to `True`,
never the reverse.  (With mixed signs the original claim fails, since
raising one override's absolute value can lower the absolute value of
the override sum.) -/
theorem claim_C5_amended (ya : Option ℚ) (yp : Option String) (month_bids : List Slot)
    (pre post : List (Slot × Option ℚ)) (k : Slot) (v v' : ℚ)
    (hnn : ∀ p ∈ pre ++ post, ∀ x : ℚ, p.2 = some x → 0 ≤ x)
    (hv : 0 ≤ v) (hvv : v ≤ v')
    (h : (compute_budget_distribution ya yp month_bids
      (pre ++ (k, some v) :: post)).over_limit = true) :
    (compute_budget_distribution ya yp month_bids
      (pre ++ (k, some v') :: post)).over_limit = true := by
  rw [over_limit_characterization] at h ⊢
  rw [Bool.and_eq_true] at h ⊢
  refine ⟨h.1, ?_⟩
  have hov := h.2
  simp only [overLimit, decide_eq_true_eq] at hov ⊢
  have hpre : 0 ≤ sumVals (cleanOverrides pre) :=
    sumVals_clean_nonneg pre (fun p hp x hx => hnn p (List.mem_append_left _ hp) x hx)
  have hpost : 0 ≤ sumVals (cleanOverrides post) :=
    sumVals_clean_nonneg post (fun p hp x hx => hnn p (List.mem_append_right _ hp) x hx)
  have hs : sumVals (cleanOverrides (pre ++ (k, some v) :: post)) =
      sumVals (cleanOverrides pre) + (v + sumVals (cleanOverrides post)) := by
    rw [cleanOverrides_append, sumVals_append, cleanOverrides_cons_some]
    simp [sumVals]
  have hs' : sumVals (cleanOverrides (pre ++ (k, some v') :: post)) =
      sumVals (cleanOverrides pre) + (v' + sumVals (cleanOverrides post)) := by
    rw [cleanOverrides_append, sumVals_append, cleanOverrides_cons_some]
    simp [sumVals]
  rw [hs] at hov
  rw [hs']
  have h0 : 0 ≤ sumVals (cleanOverrides pre) + (v + sumVals (cleanOverrides post)) := by
    have : (0:ℚ) ≤ v + sumVals (cleanOverrides post) := add_nonneg hv hpost
    linarith
  have h0' : 0 ≤ sumVals (cleanOverrides pre) + (v' + sumVals (cleanOverrides post)) := by
    have hv' : 0 ≤ v' := le_trans hv hvv
    have : (0:ℚ) ≤ v' + sumVals (cleanOverrides post) := add_nonneg hv' hpost
    linarith
  rw [abs_of_nonneg h0] at hov
  rw [abs_of_nonneg h0']
  linarith

/-- Witness for the amended C5: increasing a lone non-negative override
from 3 to 5 keeps `over_limit` true. -/
theorem claim_C5_amended_witness :
    (compute_budget_distribution (some 1) (some "Yearly") []
      [(7, some 5)]).over_limit = true := by
  apply claim_C5_amended (some 1) (some "Yearly") [] [] [] 7 3 5
    (by simp) (by norm_num) (by norm_num)
  simp +decide only [compute_budget_distribution, hasAnnual, isNullPeriod, limitedView,
    expectedCount, overLimit, annualTotal, monthsForTotal, annual_total_from_period,
    cleanOverrides, sumVals, missingBids, passValues, dget, List.filter, List.filterMap,
    List.map, Option.map, Option.isSome, Option.isNone]
  norm_num [abs_of_nonneg]

/-! ### Claim C10 -/

/-- Claim C10 (implicit): override entries whose slot is not in
`month_slots` are not ignored — the returned `values` dict always has
exactly `month_slots` as its key list, yet `explicit_slots` is the full
cleaned override key set, the over-limit decision compares the full
cleaned override sum (out-of-view entries included) against the
annualized total, and `display_total` equals that full sum in the
degenerate, over-limit, and all-explicit (`missing` empty) branches. -/
theorem claim_C10_out_of_view_overrides (ya : Option ℚ) (yp : Option String)
    (month_bids : List Slot) (overrides : List (Slot × Option ℚ)) :
    (compute_budget_distribution ya yp month_bids overrides).values.map Prod.fst = month_bids ∧
    (compute_budget_distribution ya yp month_bids overrides).explicit_slots =
      (cleanOverrides overrides).map Prod.fst ∧
    (hasAnnual ya yp = true →
      (compute_budget_distribution ya yp month_bids overrides).over_limit =
        decide (|annualTotal ya yp month_bids.length| <
          |sumVals (cleanOverrides overrides)|)) ∧
    (hasAnnual ya yp = false →
      (compute_budget_distribution ya yp month_bids overrides).display_total =
        sumVals (cleanOverrides overrides)) ∧
    (hasAnnual ya yp = true → limitedView yp month_bids.length = false →
      overLimit ya yp month_bids.length (cleanOverrides overrides) = true →
      (compute_budget_distribution ya yp month_bids overrides).display_total =
        sumVals (cleanOverrides overrides)) ∧
    (hasAnnual ya yp = true → limitedView yp month_bids.length = false →
      overLimit ya yp month_bids.length (cleanOverrides overrides) = false →
      missingBids month_bids (cleanOverrides overrides) = [] →
      (compute_budget_distribution ya yp month_bids overrides).display_total =
        sumVals (cleanOverrides overrides)) := by
  refine ⟨(values_keys_characterization ya yp month_bids overrides).1,
    (values_keys_characterization ya yp month_bids overrides).2, ?_, ?_, ?_, ?_⟩
  · intro h1
    rw [over_limit_characterization, h1]
    simp [overLimit]
  · intro h1
    rw [compute_eq_degenerate ya yp month_bids overrides h1]
  · intro h1 h2 h3
    rw [compute_eq_over ya yp month_bids overrides h1 h2 h3]
  · intro h1 h2 h3 h4
    rw [compute_eq_all_explicit ya yp month_bids overrides h1 h2 h3 h4]

/-- Witness for C10: `month_slots = []` with two overrides (both out of
view), a degenerate-branch instance showing the same total, and an
all-explicit full view (12 Yearly slots, every slot explicit) in which
the out-of-view override on slot 99 still enters `display_total`. -/
theorem claim_C10_witness :
    (compute_budget_distribution (some 5) (some "Yearly") []
      [(1, some 2), (9, some 50)]).values.map Prod.fst = [] ∧
    (compute_budget_distribution (some 5) (some "Yearly") []
      [(1, some 2), (9, some 50)]).explicit_slots = [1, 9] ∧
    (compute_budget_distribution (some 5) (some "Yearly") []
      [(1, some 2), (9, some 50)]).over_limit = true ∧
    (compute_budget_distribution (some 5) (some "Yearly") []
      [(1, some 2), (9, some 50)]).display_total = 52 ∧
    (compute_budget_distribution none (some "Yearly") [7]
      [(1, some 2), (9, some 50)]).display_total = 52 ∧
    (compute_budget_distribution (some 1000) (some "Yearly")
      [1, 2, 3, 4, 5, 6, 7, 8, 9, 10, 11, 12]
      [(1, some 10), (2, some 10), (3, some 10), (4, some 10), (5, some 10), (6, some 10),
       (7, some 10), (8, some 10), (9, some 10), (10, some 10), (11, some 10), (12, some 10),
       (99, some 5)]).display_total = 125 := by
  have hA := claim_C10_out_of_view_overrides (some 5) (some "Yearly") []
    [(1, some 2), (9, some 50)]
  have hB := claim_C10_out_of_view_overrides none (some "Yearly") [7]
    [(1, some 2), (9, some 50)]
  have hC := claim_C10_out_of_view_overrides (some 1000) (some "Yearly")
    [1, 2, 3, 4, 5, 6, 7, 8, 9, 10, 11, 12]
    [(1, some 10), (2, some 10), (3, some 10), (4, some 10), (5, some 10), (6, some 10),
     (7, some 10), (8, some 10), (9, some 10), (10, some 10), (11, some 10), (12, some 10),
     (99, some 5)]
  have hover : overLimit (some 5) (some "Yearly") (0 : ℕ)
      (cleanOverrides [(1, some 2), (9, some 50)]) = true := by
    simp only [overLimit, decide_eq_true_eq, annualTotal, monthsForTotal, expectedCount,
      annual_total_from_period, cleanOverrides, List.filterMap, Option.map, sumVals, List.map]
    norm_num [abs_of_nonneg]
  have hnotoverC : overLimit (some 1000) (some "Yearly")
      (([1, 2, 3, 4, 5, 6, 7, 8, 9, 10, 11, 12] : List Slot).length)
      (cleanOverrides
        [(1, some 10), (2, some 10), (3, some 10), (4, some 10), (5, some 10), (6, some 10),
         (7, some 10), (8, some 10), (9, some 10), (10, some 10), (11, some 10), (12, some 10),
         (99, some 5)]) = false := by
    simp only [overLimit, decide_eq_false_iff_not, not_lt, annualTotal, monthsForTotal,
      expectedCount, annual_total_from_period, cleanOverrides, List.filterMap, Option.map,
      sumVals, List.map]
    norm_num [abs_of_nonneg]
  refine ⟨hA.1, ?_, ?_, ?_, ?_, ?_⟩
  · rw [hA.2.1]
    simp +decide only [cleanOverrides, List.filterMap, Option.map, List.map]
  · rw [hA.2.2.1 (by decide)]
    simp only [decide_eq_true_eq, annualTotal, monthsForTotal, expectedCount,
      annual_total_from_period, cleanOverrides, List.filterMap, Option.map, sumVals, List.map]
    norm_num [abs_of_nonneg]
  · rw [hA.2.2.2.2.1 (by decide) (by decide) hover]
    simp only [cleanOverrides, List.filterMap, Option.map, sumVals, List.map]
    norm_num
  · rw [hB.2.2.2.1 (by decide)]
    simp only [cleanOverrides, List.filterMap, Option.map, sumVals, List.map]
    norm_num
  · rw [hC.2.2.2.2.2 (by decide) (by decide) hnotoverC (by decide)]
    simp only [cleanOverrides, List.filterMap, Option.map, sumVals, List.map]
    norm_num

/-! ### Claim C1 -/

/-- Claim C1: in the full-view spread branch (non-null annual amount,
non-empty period, `len(month_slots) >= expected_count`, at least one
slot without an explicit override, overrides not over the limit), every
explicit slot keeps exactly its override value, every missing slot other
than the last receives `share = (annualized_total - sum_overrides) /
len(missing)`, `display_total` is the annualized total, and the rounding
difference — when its absolute value exceeds 1e-6 — is added to the last
missing slot in `month_slots` iteration order, never to an explicit
slot. -/
theorem claim_C1_full_view_spread (ya : ℚ) (yp : String)
    (month_bids : List Slot) (overrides : List (Slot × Option ℚ))
    (hper : isNullPeriod (some yp) = false)
    (hfull : expectedCount (some yp) month_bids.length ≤ month_bids.length)
    (hnotover : |sumVals (cleanOverrides overrides)| ≤
      |annualTotal (some ya) (some yp) month_bids.length|)
    (hmiss : missingBids month_bids (cleanOverrides overrides) ≠ []) :
    (compute_budget_distribution (some ya) (some yp) month_bids overrides).display_total =
      annualTotal (some ya) (some yp) month_bids.length ∧
    (∀ bid v, dget (cleanOverrides overrides) bid = some v → bid ∈ month_bids →
      dget (compute_budget_distribution (some ya) (some yp) month_bids overrides).values bid =
        some v) ∧
    (∀ bid, bid ∈ missingBids month_bids (cleanOverrides overrides) →
      bid ≠ (missingBids month_bids (cleanOverrides overrides)).getLastD 0 →
      dget (compute_budget_distribution (some ya) (some yp) month_bids overrides).values bid =
        some (shareOf (some ya) (some yp) month_bids.length (cleanOverrides overrides)
          (missingBids month_bids (cleanOverrides overrides)))) ∧
    dget (compute_budget_distribution (some ya) (some yp) month_bids overrides).values
        ((missingBids month_bids (cleanOverrides overrides)).getLastD 0) =
      some (shareOf (some ya) (some yp) month_bids.length (cleanOverrides overrides)
          (missingBids month_bids (cleanOverrides overrides)) +
        (if 1/1000000 < |annualTotal (some ya) (some yp) month_bids.length -
            sumVals (shareValues (cleanOverrides overrides) month_bids
              (shareOf (some ya) (some yp) month_bids.length (cleanOverrides overrides)
                (missingBids month_bids (cleanOverrides overrides))))| then
          annualTotal (some ya) (some yp) month_bids.length -
            sumVals (shareValues (cleanOverrides overrides) month_bids
              (shareOf (some ya) (some yp) month_bids.length (cleanOverrides overrides)
                (missingBids month_bids (cleanOverrides overrides))))
        else 0)) := by
  have h1 : hasAnnual (some ya) (some yp) = true := by
    simp [hasAnnual, hper]
  have h2 : limitedView (some yp) month_bids.length = false := by
    simp only [limitedView, decide_eq_false_iff_not]
    rintro ⟨-, -, hlt⟩
    omega
  have h3 : overLimit (some ya) (some yp) month_bids.length (cleanOverrides overrides) = false := by
    simp only [overLimit, decide_eq_false_iff_not]
    exact not_lt.mpr hnotover
  rw [compute_eq_spread (some ya) (some yp) month_bids overrides h1 h2 h3 hmiss]
  have hlast_mem : (missingBids month_bids (cleanOverrides overrides)).getLastD 0 ∈
      missingBids month_bids (cleanOverrides overrides) :=
    getLastD_mem _ 0 hmiss
  have hlast_none : dget (cleanOverrides overrides)
      ((missingBids month_bids (cleanOverrides overrides)).getLastD 0) = none :=
    (mem_missingBids.mp hlast_mem).2
  have hlast_bids : (missingBids month_bids (cleanOverrides overrides)).getLastD 0 ∈ month_bids :=
    (mem_missingBids.mp hlast_mem).1
  refine ⟨rfl, ?_, ?_, ?_⟩
  · -- explicit slots keep their values
    intro bid v hv hb
    have hbne : bid ≠ (missingBids month_bids (cleanOverrides overrides)).getLastD 0 := by
      intro hh
      rw [hh, hlast_none] at hv
      cases hv
    show dget (distValues (some ya) (some yp) month_bids (cleanOverrides overrides)) bid = some v
    simp only [distValues]
    split
    · rw [dget_addToSlot, if_neg hbne, dget_shareValues _ _ _ _ hb]
      simp [shareVal, hv]
    · rw [dget_shareValues _ _ _ _ hb]
      simp [shareVal, hv]
  · -- missing slots other than the last receive the share
    intro bid hbm hbne
    obtain ⟨hb, hnone⟩ := mem_missingBids.mp hbm
    show dget (distValues (some ya) (some yp) month_bids (cleanOverrides overrides)) bid = _
    simp only [distValues]
    split
    · rw [dget_addToSlot, if_neg hbne, dget_shareValues _ _ _ _ hb]
      simp [shareVal, hnone]
    · rw [dget_shareValues _ _ _ _ hb]
      simp [shareVal, hnone]
  · -- the last missing slot receives the share plus the correction
    show dget (distValues (some ya) (some yp) month_bids (cleanOverrides overrides)) _ = _
    simp only [distValues]
    split
    · rename_i hcond
      rw [if_pos hcond.2, dget_addToSlot, if_pos rfl,
        dget_shareValues _ _ _ _ hlast_bids]
      simp only [shareVal, hlast_none, Option.map_some']
    · rename_i hcond
      have hno : ¬ (1/1000000 < |annualTotal (some ya) (some yp) month_bids.length -
          sumVals (shareValues (cleanOverrides overrides) month_bids
            (shareOf (some ya) (some yp) month_bids.length (cleanOverrides overrides)
              (missingBids month_bids (cleanOverrides overrides))))|) := by
        intro hc
        exact hcond ⟨hmiss, hc⟩
      rw [if_neg hno, dget_shareValues _ _ _ _ hlast_bids]
      simp only [shareVal, hlast_none, add_zero]

/-- Witness for C1: 1200 Yearly over 12 slots with one override of 300;
slot 1 keeps 300, interior missing slots receive 900/11, and the last
missing slot (12) receives 900/11 plus a zero correction. -/
theorem claim_C1_witness :
    (compute_budget_distribution (some 1200) (some "Yearly")
      [1, 2, 3, 4, 5, 6, 7, 8, 9, 10, 11, 12] [(1, some 300)]).display_total = 1200 ∧
    dget (compute_budget_distribution (some 1200) (some "Yearly")
      [1, 2, 3, 4, 5, 6, 7, 8, 9, 10, 11, 12] [(1, some 300)]).values 1 = some 300 ∧
    dget (compute_budget_distribution (some 1200) (some "Yearly")
      [1, 2, 3, 4, 5, 6, 7, 8, 9, 10, 11, 12] [(1, some 300)]).values 2 = some (900/11) ∧
    dget (compute_budget_distribution (some 1200) (some "Yearly")
      [1, 2, 3, 4, 5, 6, 7, 8, 9, 10, 11, 12] [(1, some 300)]).values 12 = some (900/11) := by
  have hno : |sumVals (cleanOverrides [(1, some (300:ℚ))])| ≤
      |annualTotal (some 1200) (some "Yearly")
        ([1, 2, 3, 4, 5, 6, 7, 8, 9, 10, 11, 12] : List Slot).length| := by
    simp +decide only [sumVals, cleanOverrides, List.filterMap, Option.map, List.map,
      annualTotal, monthsForTotal, expectedCount, annual_total_from_period]
    norm_num [abs_of_nonneg]
  have h := claim_C1_full_view_spread 1200 "Yearly" [1, 2, 3, 4, 5, 6, 7, 8, 9, 10, 11, 12]
    [(1, some 300)] (by decide) (by decide) hno (by decide)
  have hshare : shareOf (some 1200) (some "Yearly")
      ([1, 2, 3, 4, 5, 6, 7, 8, 9, 10, 11, 12] : List Slot).length
      (cleanOverrides [(1, some 300)])
      (missingBids [1, 2, 3, 4, 5, 6, 7, 8, 9, 10, 11, 12] (cleanOverrides [(1, some 300)])) =
      900/11 := by
    simp +decide only [shareOf, annualTotal, monthsForTotal, expectedCount,
      annual_total_from_period, cleanOverrides, List.filterMap, Option.map, sumVals,
      missingBids, dget, List.filter, List.map, Option.isNone, List.length]
    norm_num
  have hlast : (missingBids [1, 2, 3, 4, 5, 6, 7, 8, 9, 10, 11, 12]
      (cleanOverrides [(1, some (300:ℚ))])).getLastD 0 = 12 := by decide
  refine ⟨?_, ?_, ?_, ?_⟩
  · rw [h.1]
    simp +decide only [annualTotal, monthsForTotal, expectedCount, annual_total_from_period]
  · exact h.2.1 1 300 (by decide) (by decide)
  · rw [h.2.2.1 2 (by decide) (by decide), hshare]
  · have h4 := h.2.2.2
    rw [hlast] at h4
    rw [h4, hshare]
    have hdiff : annualTotal (some 1200) (some "Yearly")
        ([1, 2, 3, 4, 5, 6, 7, 8, 9, 10, 11, 12] : List Slot).length -
        sumVals (shareValues (cleanOverrides [(1, some 300)])
          [1, 2, 3, 4, 5, 6, 7, 8, 9, 10, 11, 12] (900/11)) = 0 := by
      simp +decide only [annualTotal, monthsForTotal, expectedCount, annual_total_from_period,
        shareValues, shareVal, cleanOverrides, List.filterMap, Option.map, sumVals,
        dget, List.map]
      norm_num
    rw [hdiff]
    norm_num

/-! ### Claim C8 -/

/-- Counterexample to C8 as stated: a full-view, partially-explicit,
not-over-limit input carrying an out-of-view override of 1e-7 leaves a
residue of 1e-7 between the value sum and `display_total`: the residue
is at most the 1e-6 correction threshold, so no correction fires, and
1e-7 exceeds the claimed 1e-9 closure bound. -/
theorem claim_C8_counterexample :
    (compute_budget_distribution (some 1200) (some "Yearly")
      [1, 2, 3, 4, 5, 6, 7, 8, 9, 10, 11, 12]
      [(1, some 100), (99, some (1/10000000))]).over_limit = false ∧
    ¬ (|sumVals (compute_budget_distribution (some 1200) (some "Yearly")
        [1, 2, 3, 4, 5, 6, 7, 8, 9, 10, 11, 12]
        [(1, some 100), (99, some (1/10000000))]).values -
      (compute_budget_distribution (some 1200) (some "Yearly")
        [1, 2, 3, 4, 5, 6, 7, 8, 9, 10, 11, 12]
        [(1, some 100), (99, some (1/10000000))]).display_total| ≤ 1/1000000000) := by
  constructor <;>
    · simp +decide only [compute_budget_distribution, hasAnnual, isNullPeriod, limitedView,
        expectedCount, overLimit, annualTotal, monthsForTotal, annual_total_from_period,
        cleanOverrides, sumVals, missingBids, distValues, shareValues, shareVal, shareOf,
        addToSlot, passValues, limitedValues, pyOr, dget, List.filter, List.filterMap,
        List.map, Option.map, Option.isSome, Option.isNone, List.getLastD]
      norm_num [abs_of_nonneg, abs_of_nonpos]

/-- Claim C8 amended: restricted to inputs whose override keys all lie
within the (duplicate-free) `month_slots`, the claim holds — indeed the
value sum then equals `display_total` exactly, so it is within 1e-9.
(The counterexample shows an override on a slot outside `month_slots`
can leave a sub-threshold residue larger than 1e-9.) -/
theorem claim_C8_amended (ya : ℚ) (yp : String) (month_bids : List Slot)
    (overrides : List (Slot × Option ℚ))
    (hnodup : month_bids.Nodup)
    (hkeys : ((cleanOverrides overrides).map Prod.fst).Nodup)
    (hsub : ∀ p ∈ cleanOverrides overrides, p.1 ∈ month_bids)
    (hper : isNullPeriod (some yp) = false)
    (hfull : expectedCount (some yp) month_bids.length ≤ month_bids.length)
    (hnotover : |sumVals (cleanOverrides overrides)| ≤
      |annualTotal (some ya) (some yp) month_bids.length|)
    (hmiss : missingBids month_bids (cleanOverrides overrides) ≠ [])
    (b₀ : Slot) (hb₀ : b₀ ∈ month_bids)
    (hexp : (dget (cleanOverrides overrides) b₀).isSome = true) :
    |sumVals (compute_budget_distribution (some ya) (some yp) month_bids overrides).values -
      (compute_budget_distribution (some ya) (some yp) month_bids overrides).display_total| ≤
      1/1000000000 := by
  have h1 : hasAnnual (some ya) (some yp) = true := by
    simp [hasAnnual, hper]
  have h2 : limitedView (some yp) month_bids.length = false := by
    simp only [limitedView, decide_eq_false_iff_not]
    rintro ⟨-, -, hlt⟩
    omega
  have h3 : overLimit (some ya) (some yp) month_bids.length (cleanOverrides overrides) = false := by
    simp only [overLimit, decide_eq_false_iff_not]
    exact not_lt.mpr hnotover
  rw [compute_eq_spread (some ya) (some yp) month_bids overrides h1 h2 h3 hmiss]
  have hlen : (((missingBids month_bids (cleanOverrides overrides)).length : ℕ) : ℚ) ≠ 0 := by
    have : 0 < (missingBids month_bids (cleanOverrides overrides)).length :=
      List.length_pos.mpr hmiss
    exact_mod_cast Nat.pos_iff_ne_zero.mp this
  have hsum : sumVals (shareValues (cleanOverrides overrides) month_bids
      (shareOf (some ya) (some yp) month_bids.length (cleanOverrides overrides)
        (missingBids month_bids (cleanOverrides overrides)))) =
      annualTotal (some ya) (some yp) month_bids.length := by
    rw [shareValues_sum month_bids hnodup _ (cleanOverrides overrides) hkeys hsub,
      shareOf_eq _ _ _ _ _ hmiss, div_mul_cancel₀ _ hlen]
    ring
  show |sumVals (distValues (some ya) (some yp) month_bids (cleanOverrides overrides)) -
    annualTotal (some ya) (some yp) month_bids.length| ≤ 1/1000000000
  simp only [distValues]
  rw [hsum]
  have hc : ¬ (missingBids month_bids (cleanOverrides overrides) ≠ [] ∧
      1/1000000 < |annualTotal (some ya) (some yp) month_bids.length -
        annualTotal (some ya) (some yp) month_bids.length|) := by
    rintro ⟨-, hlt⟩
    rw [sub_self, abs_zero] at hlt
    norm_num at hlt
  rw [if_neg hc, hsum, sub_self, abs_zero]
  norm_num

/-- Witness for the amended C8 at a concrete full-view input. -/
theorem claim_C8_amended_witness :
    |sumVals (compute_budget_distribution (some 1200) (some "Yearly")
      [1, 2, 3, 4, 5, 6, 7, 8, 9, 10, 11, 12] [(2, some 100)]).values -
      (compute_budget_distribution (some 1200) (some "Yearly")
        [1, 2, 3, 4, 5, 6, 7, 8, 9, 10, 11, 12] [(2, some 100)]).display_total| ≤
      1/1000000000 := by
  apply claim_C8_amended 1200 "Yearly" [1, 2, 3, 4, 5, 6, 7, 8, 9, 10, 11, 12]
    [(2, some 100)] (by decide) (by decide) (by decide) (by decide) (by decide)
    ?_ (by decide) 2 (by decide) (by decide)
  simp +decide only [sumVals, cleanOverrides, List.filterMap, Option.map, List.map,
    annualTotal, monthsForTotal, expectedCount, annual_total_from_period]
  norm_num [abs_of_nonneg]

/-! ### Edit reconciliation model (claims C7 and C9) -/

/-- A pending edit entry `{"amount": float|None, "period": str|None}`
as stored in `self.edits` (app.py lines 2924, 2956). -/
structure EditData where
  amount : Option ℚ
  period : Option String
  deriving Repr, DecidableEq

/-- Effective overrides built by `recalc_category` (app.py lines
2736-2748): an edit whose amount is None (a cleared cell) skips the
slot entirely — the base stored value is not reintroduced; an edit with
a value wins over the base; otherwise the base stored amount is used
when present.  `edits bid = some none` models an edit entry with
`amount = None`, `edits bid = none` models no pending edit. -/
def effective_overrides (edits : Slot → Option (Option ℚ)) (base : Slot → Option ℚ)
    (month_bids : List Slot) : List (Slot × ℚ) :=
  month_bids.filterMap fun bid =>
    match edits bid with
    | some none => none
    | some (some v) => some (bid, v)
    | none => (base bid).map fun b => (bid, b)

/-- Overrides are handed to the distribution engine as a dict of floats;
lifting re-creates the `Option`-valued interface of `distribute`. -/
def liftOverrides (l : List (Slot × ℚ)) : List (Slot × Option ℚ) :=
  l.map fun p => (p.1, some p.2)

/-- Persistence command issued by `save_budgets`. -/
inductive SaveOp where
  | deleteEntry (bid cid : ℕ)
  | upsertEntry (bid cid : ℕ) (period : String) (amount : ℚ)
  deriving Repr, DecidableEq

/-- The `save_budgets` loop (app.py lines 2975-2981): an edit whose
amount is None issues `delete_budget_entry(bid, cid)`, any other edit
issues `upsert_budget_entry(bid, cid, period, amount)` with the period
defaulting to "Monthly". -/
def save_ops (edits : List ((ℕ × ℕ) × EditData)) : List SaveOp :=
  edits.map fun e =>
    match e.2.amount with
    | none => SaveOp.deleteEntry e.1.1 e.1.2
    | some a => SaveOp.upsertEntry e.1.1 e.1.2 (e.2.period.getD "Monthly") a

theorem cleanOverrides_lift (l : List (Slot × ℚ)) :
    cleanOverrides (liftOverrides l) = l := by
  induction l with
  | nil => rfl
  | cons p t ih => simp [cleanOverrides, liftOverrides] at ih ⊢; exact ih

/-- The key list of the effective overrides: slots whose edit is a
clear are filtered out, edited slots are kept, and otherwise the slot
is kept exactly when a base amount exists. -/
theorem keys_effective (edits : Slot → Option (Option ℚ)) (base : Slot → Option ℚ) :
    ∀ (bids : List Slot),
      (effective_overrides edits base bids).map Prod.fst =
        bids.filter fun b =>
          match edits b with
          | some none => false
          | some (some _) => true
          | none => (base b).isSome := by
  intro bids
  induction bids with
  | nil => rfl
  | cons a t ih =>
    simp only [effective_overrides, List.filterMap_cons] at ih ⊢
    cases he : edits a with
    | none =>
      cases hb : base a with
      | none => simpa [he, hb, List.filter_cons] using ih
      | some x => simpa [he, hb, List.filter_cons] using ih
    | some ov =>
      cases ov with
      | none => simpa [he, List.filter_cons] using ih
      | some v => simpa [he, List.filter_cons] using ih

/-- In a list with duplicate-free keys, a key determines its value. -/
theorem nodup_keys_eq {α β : Type} :
    ∀ (l : List (α × β)), (l.map Prod.fst).Nodup →
      ∀ {k : α} {x y : β}, (k, x) ∈ l → (k, y) ∈ l → x = y := by
  intro l
  induction l with
  | nil => intro _ _ _ _ h; cases h
  | cons p t ih =>
    intro hnd k x y hx hy
    rw [List.map_cons] at hnd
    have hnd' := List.nodup_cons.mp hnd
    rcases List.mem_cons.mp hx with hx1 | hx1 <;> rcases List.mem_cons.mp hy with hy1 | hy1
    · rw [← hx1] at hy1
      exact (Prod.mk.injEq _ _ _ _).mp hy1.symm |>.2
    · exfalso
      apply hnd'.1
      have hm : k ∈ List.map Prod.fst t := List.mem_map_of_mem Prod.fst hy1
      rw [← hx1]
      exact hm
    · exfalso
      apply hnd'.1
      have hm : k ∈ List.map Prod.fst t := List.mem_map_of_mem Prod.fst hx1
      rw [← hy1]
      exact hm
    · exact ih hnd'.2 hx1 hy1

/-! ### Claim C7 -/

/-- Claim C7: clearing an override is distinct from setting it to zero.
A pending edit with `amount = None` for a slot excludes that slot from
the effective overrides (the base stored value is not reintroduced, so
the slot leaves `explicit_slots` on recompute), and on save that edit
issues `delete_budget_entry(slot, category)` — and never an
`upsert_budget_entry` for that (slot, category) pair. -/
theorem claim_C7_clear_vs_zero
    (edits : Slot → Option (Option ℚ)) (base : Slot → Option ℚ)
    (month_bids : List Slot) (ya : Option ℚ) (yp : Option String) (bid : Slot)
    (hcleared : edits bid = some none)
    (saveEdits : List ((ℕ × ℕ) × EditData)) (cid : ℕ) (ed : EditData)
    (hmem : ((bid, cid), ed) ∈ saveEdits) (hamt : ed.amount = none)
    (hkeys : (saveEdits.map Prod.fst).Nodup) :
    bid ∉ (effective_overrides edits base month_bids).map Prod.fst ∧
    bid ∉ (compute_budget_distribution ya yp month_bids
      (liftOverrides (effective_overrides edits base month_bids))).explicit_slots ∧
    SaveOp.deleteEntry bid cid ∈ save_ops saveEdits ∧
    (∀ per a, SaveOp.upsertEntry bid cid per a ∉ save_ops saveEdits) := by
  have hnotin : bid ∉ (effective_overrides edits base month_bids).map Prod.fst := by
    rw [keys_effective edits base month_bids]
    intro hmem'
    have := (List.mem_filter.mp hmem').2
    rw [hcleared] at this
    simp at this
  refine ⟨hnotin, ?_, ?_, ?_⟩
  · rw [(values_keys_characterization ya yp month_bids
      (liftOverrides (effective_overrides edits base month_bids))).2,
      cleanOverrides_lift]
    exact hnotin
  · have himg : (fun (e : (ℕ × ℕ) × EditData) =>
        match e.2.amount with
        | none => SaveOp.deleteEntry e.1.1 e.1.2
        | some a => SaveOp.upsertEntry e.1.1 e.1.2 (e.2.period.getD "Monthly") a)
          ((bid, cid), ed) = SaveOp.deleteEntry bid cid := by
      simp [hamt]
    rw [save_ops, ← himg]
    exact List.mem_map_of_mem _ hmem
  · intro per a hup
    simp only [save_ops, List.mem_map] at hup
    obtain ⟨e, he, hfe⟩ := hup
    cases hea : e.2.amount with
    | none => rw [hea] at hfe; cases hfe
    | some a' =>
      rw [hea] at hfe
      have h1 : e.1.1 = bid := by cases hfe; rfl
      have h2 : e.1.2 = cid := by cases hfe; rfl
      have hkey : e.1 = (bid, cid) := by
        rw [← h1, ← h2]
      have he' : ((bid, cid), e.2) ∈ saveEdits := by
        rw [← hkey]
        exact he
      have := nodup_keys_eq saveEdits hkeys he' hmem
      rw [← this, hea] at hamt
      cases hamt

/-- Witness for C7: slot 2 has a base value 50 and a pending clear
edit; it drops out of the effective overrides and of `explicit_slots`,
and the save of `{(2,7): {amount: None}}` issues a delete, never an
upsert. -/
theorem claim_C7_witness :
    2 ∉ (effective_overrides (fun b => if b = 2 then some none else none)
      (fun b => if b = 2 then some 50 else none) [1, 2]).map Prod.fst ∧
    2 ∉ (compute_budget_distribution (some 100) (some "Yearly") [1, 2]
      (liftOverrides (effective_overrides (fun b => if b = 2 then some none else none)
        (fun b => if b = 2 then some 50 else none) [1, 2]))).explicit_slots ∧
    SaveOp.deleteEntry 2 7 ∈ save_ops [((2, 7), ⟨none, some "Monthly"⟩)] ∧
    SaveOp.upsertEntry 2 7 "Monthly" 0 ∉ save_ops [((2, 7), ⟨none, some "Monthly"⟩)] := by
  have h := claim_C7_clear_vs_zero (fun b => if b = 2 then some none else none)
    (fun b => if b = 2 then some 50 else none) [1, 2] (some 100) (some "Yearly") 2
    (by simp) [((2, 7), ⟨none, some "Monthly"⟩)] 7 ⟨none, some "Monthly"⟩
    (by simp) rfl (by simp)
  exact ⟨h.1, h.2.1, h.2.2.1, h.2.2.2 "Monthly" 0⟩

/-! ### Claim C9 -/

/-- Text cleaning applied to an amount cell
(`text_value.replace(",", "").strip()`, app.py line 2889): remove every
comma, then strip leading and trailing whitespace. -/
def cleanAmountText (text : String) : String :=
  String.mk ((((text.data.filter fun c => c ≠ ',').dropWhile
    Char.isWhitespace).reverse.dropWhile Char.isWhitespace).reverse)

/-- The transient edit overlay and unsaved-changes flag of the window. -/
structure EditState where
  edits : List ((ℕ × ℕ) × EditData)
  unsaved : Bool
  deriving Repr, DecidableEq

/-- Python dict assignment `self.edits[(bid, cid)] = data`: replace in
place when the key exists, else append. -/
def upsertEdit (edits : List ((ℕ × ℕ) × EditData)) (key : ℕ × ℕ) (d : EditData) :
    List ((ℕ × ℕ) × EditData) :=
  if edits.any fun e => e.1 = key then
    edits.map fun e => if e.1 = key then (key, d) else e
  else edits ++ [(key, d)]

/-- `on_item_changed` for a month budget cell (app.py lines 2886-2927),
with Python `float(...)` abstracted as the `parseFloat` parameter
(failure — the caught `Exception` of line 2895 — is `none`): cleaned
text "" or "-" registers a clear edit (amount None); parseable text
registers the parsed amount and marks unsaved changes; any other text
returns before any state is touched (app.py line 2896), so no edit
registers, no flag flips, and no exception escapes. -/
def on_item_changed_budget (parseFloat : String → Option ℚ) (st : EditState)
    (bid cid : ℕ) (text : String) : EditState :=
  if cleanAmountText text = "" ∨ cleanAmountText text = "-" then
    { edits := upsertEdit st.edits (bid, cid) ⟨none, some "Monthly"⟩, unsaved := true }
  else
    match parseFloat (cleanAmountText text) with
    | none => st
    | some v =>
      { edits := upsertEdit st.edits (bid, cid) ⟨some v, some "Monthly"⟩, unsaved := true }

/-- Claim C9: an amount-cell change whose cleaned text is neither
empty, "-", nor parseable as a float registers no edit — the edits
overlay, the unsaved-changes flag (and hence every value derived from
them) are exactly as before, and the handler returns normally. -/
theorem claim_C9_invalid_text_rejected (parseFloat : String → Option ℚ)
    (st : EditState) (bid cid : ℕ) (text : String)
    (h1 : cleanAmountText text ≠ "") (h2 : cleanAmountText text ≠ "-")
    (h3 : parseFloat (cleanAmountText text) = none) :
    on_item_changed_budget parseFloat st bid cid text = st ∧
    (on_item_changed_budget parseFloat st bid cid text).edits = st.edits ∧
    (on_item_changed_budget parseFloat st bid cid text).unsaved = st.unsaved := by
  have h : on_item_changed_budget parseFloat st bid cid text = st := by
    rw [on_item_changed_budget, if_neg (by push_neg; exact ⟨h1, h2⟩), h3]
  exact ⟨h, by rw [h], by rw [h]⟩

/-- Witness for C9: the text "abc," cleans to "abc", which no parser
accepts; the state with one prior edit is returned untouched. -/
theorem claim_C9_witness :
    on_item_changed_budget (fun _ => none)
      { edits := [((3, 4), ⟨some 5, some "Monthly"⟩)], unsaved := false } 3 4 "abc," =
      { edits := [((3, 4), ⟨some 5, some "Monthly"⟩)], unsaved := false } := by
  exact (claim_C9_invalid_text_rejected (fun _ => none)
    { edits := [((3, 4), ⟨some 5, some "Monthly"⟩)], unsaved := false } 3 4 "abc,"
    (by decide) (by decide) rfl).1

end BudgetApp
